import Mathlib

/-
Verification development for the gwtransport1d deposition-inversion core
(src/gwtransport1d/deposition.py).

Shallow embedding conventions:
* Timestamps are rationals measured in days (the flow index of the pandas
  series); flow values, concentrations and depositions are rationals.
* The residence-time provider (gwtransport1d.residence_time, not part of the
  sources under verification) is modelled from the spec: it is an external,
  deterministic series aligned to the flow index with possible missing
  values, so the embedding takes the residence-time series as an explicit
  argument of type List (Option Rat).
* IEEE-754 special values produced by scaling (division by a zero flow floor)
  are modelled by the FVal type with explicit inf / -inf / nan elements; all
  inputs are finite, so only the operations actually performed by the code
  (division of finite values, multiply by a finite value, addition) are
  modelled.
* numpy.linalg.lstsq, numpy.linalg.svd and scipy.optimize.minimize are
  external library calls; they are modelled as oracle functions packaged in
  the Oracles structure, and theorems state their contracts as hypotheses.
* Exceptions are modelled with Except PyErr; the list of Event values
  returned next to the result records which numerical stages ran, in order,
  so that claims about "raised before the solve / before optimization" are
  statable.
* Indexing assumed in range: for nonnegative residence times and extraction
  timestamps taken from the flow index, every index access performed by the
  code is in range, which the claims hypothesise where it matters.
-/

deriving instance DecidableEq for Except

namespace Gwt

/-- IEEE-754-style value: a finite rational, an infinity, or nan. -/
inductive FVal where
  | fin (q : ℚ)
  | inf
  | ninf
  | nan
  deriving DecidableEq, Repr

namespace FVal

/-- Model of numpy.isnan on one value. -/
def isnan : FVal → Bool
  | .nan => true
  | _ => false

/-- Model of numpy.isfinite on one value. -/
def isfinite : FVal → Bool
  | .fin _ => true
  | _ => false

/-- The rational carried by a finite value (0 otherwise). -/
def toQ0 : FVal → ℚ
  | .fin q => q
  | _ => 0

end FVal

/-- IEEE division of two finite values (rational division, with the
division-by-positive-zero rules for a zero denominator). -/
def fdivQ (a b : ℚ) : FVal :=
  if b = 0 then
    if a = 0 then .nan else if 0 < a then .inf else .ninf
  else .fin (a / b)

/-- IEEE division of a value by a finite value. -/
def fdivF : FVal → ℚ → FVal
  | .fin a, b => fdivQ a b
  | .inf, b => if b < 0 then .ninf else .inf
  | .ninf, b => if b < 0 then .inf else .ninf
  | .nan, _ => .nan

/-- IEEE multiplication of a value by a finite value. -/
def fmulF : FVal → ℚ → FVal
  | .fin a, b => .fin (a * b)
  | .inf, b => if b = 0 then .nan else if 0 < b then .inf else .ninf
  | .ninf, b => if b = 0 then .nan else if 0 < b then .ninf else .inf
  | .nan, _ => .nan

/-- IEEE addition. -/
def fadd : FVal → FVal → FVal
  | .fin a, .fin b => .fin (a + b)
  | .fin _, .inf => .inf
  | .fin _, .ninf => .ninf
  | .fin _, .nan => .nan
  | .inf, .fin _ => .inf
  | .inf, .inf => .inf
  | .inf, .ninf => .nan
  | .inf, .nan => .nan
  | .ninf, .fin _ => .ninf
  | .ninf, .ninf => .ninf
  | .ninf, .inf => .nan
  | .ninf, .nan => .nan
  | .nan, _ => .nan

/-- numpy searchsorted with side given as left on a sorted list: the number
of leading elements strictly below the query, i.e. the left insertion
point. -/
def searchsorted : List ℚ → ℚ → ℕ
  | [], _ => 0
  | x :: xs, v => if x < v then searchsorted xs v + 1 else 0

/-- Insertion of one element into a sorted list (helper for the median). -/
def insertQ (x : ℚ) : List ℚ → List ℚ
  | [] => [x]
  | y :: ys => if x ≤ y then x :: y :: ys else y :: insertQ x ys

/-- Insertion sort (helper for the median). -/
def sortQ (xs : List ℚ) : List ℚ := xs.foldr insertQ []

/-- pandas Series.median: middle element of the sorted values, or the mean
of the two middle elements for an even length (0 for an empty list, a case
no claim exercises). -/
def medianQ (xs : List ℚ) : ℚ :=
  let s := sortQ xs
  let n := s.length
  if n = 0 then 0
  else if n % 2 = 1 then s.getD (n / 2) 0
  else (s.getD (n / 2 - 1) 0 + s.getD (n / 2) 0) / 2

/-- Aquifer parameters of compute_deposition / deposition_coefficients. -/
structure AquiferParams where
  aquifer_pore_volume : ℚ
  porosity : ℚ
  thickness : ℚ
  retardation_factor : ℚ
  deriving DecidableEq, Repr

/-- The valid extraction rows of df_out: the (timestamp, flow, residence
time) triples at the indices where the residence time is not missing, in
flow-index order (deposition.py lines 147-149). -/
def validRows (index vals : List ℚ) (rt : List (Option ℚ)) : List (ℚ × ℚ × ℚ) :=
  (index.zip (vals.zip rt)).filterMap
    (fun p => p.2.2.map (fun r => (p.1, p.2.1, r)))

/-- One row of the dt matrix (deposition.py lines 160-166): columns itinf
through itextr get 1.0, then column itinf is overwritten with the fraction
(index[itinf] - infiltration timestamp) in days. -/
def dtRow (index : List ℚ) (t rtv : ℚ) : List ℚ :=
  let itinf := searchsorted index (t - rtv)
  let itextr := searchsorted index t
  (List.range index.length).map (fun j =>
    if j = itinf then index.getD itinf 0 - (t - rtv)
    else if itinf ≤ j ∧ j ≤ itextr then 1 else 0)

/-- The scaled coefficient matrix (deposition.py lines 153-170): each dt row
is multiplied by darea / clipped flow, where darea = flow /
(retardation_factor * porosity * thickness) uses the unclipped flow and the
clip floor is median(flow) / 100. -/
def coeffMatrix (P : AquiferParams) (index vals : List ℚ)
    (rt : List (Option ℚ)) : List (List FVal) :=
  let floor := medianQ vals / 100
  (validRows index vals rt).map (fun row =>
    let darea := fdivQ row.2.1 (P.retardation_factor * P.porosity * P.thickness)
    let clipped := max row.2.1 floor
    let scale := fdivF darea clipped
    (dtRow index row.1 row.2.2).map (fun d => fmulF scale d))

/-- Python exceptions reachable in this module. -/
inductive PyErr where
  | valueError (msg : String)
  | indexError
  deriving DecidableEq, Repr

/-- deposition_coefficients (deposition.py lines 123-176): build the scaled
coefficient matrix and raise if any entry is nan (the only non-finiteness
the code checks). -/
def depositionCoefficients (P : AquiferParams) (index vals : List ℚ)
    (rt : List (Option ℚ)) : Except PyErr (List (List FVal)) :=
  let m := coeffMatrix P index vals rt
  if m.any (fun row => row.any FVal.isnan) then
    .error (.valueError "Coefficients contain nan values.")
  else .ok m

/-- nullspace (deposition.py lines 179-219) applied to the s and vh factors
returned by the external SVD: reading s[0] of an empty singular-value list
raises IndexError; otherwise the rows of vh from position
nnz = #(s >= tol) on are the nullspace basis vectors (the code returns them
transposed, as columns). -/
def nullspaceRun (s : List ℚ) (vh : List (List ℚ)) (atol rtol : ℚ) :
    Except PyErr (List (List ℚ)) :=
  match s with
  | [] => .error .indexError
  | s0 :: rest =>
      let tol := max atol (rtol * s0)
      let nnz := (s0 :: rest).countP (fun x => decide (tol ≤ x))
      .ok (vh.drop nnz)

/-- Default atol of nullspace (1e-13). -/
def nullspaceAtol : ℚ := 1 / 10 ^ 13

/-- The nullspace_objective argument: a string, a callable, or any other
(non-callable, non-string) Python value. -/
inductive ObjArg where
  | str (s : String)
  | callable
  | other
  deriving DecidableEq, Repr

/-- What the f-string interpolation of the objective argument prints. -/
def ObjArg.print : ObjArg → String
  | .str s => s
  | .callable => "<callable>"
  | .other => "<object>"

/-- Python callable() on the objective argument. -/
def ObjArg.isCallable : ObjArg → Bool
  | .callable => true
  | _ => false

/-- True on the values the dispatch of compute_deposition rejects. -/
def ObjArg.isUnknown : ObjArg → Bool
  | .str s => !(s == "squared_lengths") && !(s == "summed_lengths")
  | .callable => false
  | .other => true

/-- Which objective a call of scipy.optimize.minimize is made with. -/
inductive MinStage where
  | squared
  | summed
  | custom
  deriving DecidableEq, Repr

/-- Result object of scipy.optimize.minimize. -/
structure OptResult where
  x : List ℚ
  success : Bool
  message : String
  deriving DecidableEq, Repr

/-- External numerical routines consumed by compute_deposition, modelled as
oracles: numpy.linalg.lstsq (solution vector), numpy.linalg.svd (s and vh
factors) and scipy.optimize.minimize (per stage, from a start vector). -/
structure Oracles where
  lstsqO : List (List FVal) → List ℚ → List ℚ
  svdO : List (List FVal) → List ℚ × List (List ℚ)
  minimizeO : MinStage → List ℚ → OptResult

/-- Numerical stages recorded in order by the embedding of
compute_deposition. -/
inductive Event where
  | lstsq
  | minimize (stage : MinStage)
  deriving DecidableEq, Repr

/-- The message of the length-mismatch ValueError of compute_deposition
(including the dangling "Either " the code appends). -/
def lengthMsg (ncout nrows : ℕ) : String :=
  "Length of cout (" ++ toString ncout ++
    ") should be equal to the number of rows in coeff (" ++ toString nrows ++
    ")" ++ "Either "

/-- colsOfNullspace @ x: the linear combination of the nullspace basis
vectors (each of length k) with the coefficient vector x; for an empty basis
this is the zero vector of length k, like the numpy product with a (k, 0)
matrix. -/
def nsContrib (k : ℕ) (rows : List (List ℚ)) (x : List ℚ) : List ℚ :=
  (rows.zip x).foldl
    (fun acc p => List.zipWith (· + ·) acc (p.1.map (fun a => p.2 * a)))
    (List.replicate k 0)

/-- compute_deposition (deposition.py lines 8-90). Returns the events that
ran, and either the raised exception or the returned series as an
(index, values) pair. -/
def computeDeposition (O : Oracles) (P : AquiferParams) (index vals : List ℚ)
    (rt : List (Option ℚ)) (cout : List ℚ) (obj : ObjArg) :
    List Event × Except PyErr (List ℚ × List ℚ) :=
  match depositionCoefficients P index vals rt with
  | .error e => ([], .error e)
  | .ok coeff =>
    if cout.length ≠ coeff.length then
      ([], .error (.valueError (lengthMsg cout.length coeff.length)))
    else
      match nullspaceRun (O.svdO coeff).1 (O.svdO coeff).2 nullspaceAtol 0 with
      | .error e => ([.lstsq], .error e)
      | .ok nsRows =>
        if (O.minimizeO .squared (List.replicate nsRows.length 0)).success = false then
          ([.lstsq, .minimize .squared],
            .error (.valueError ("Optimization failed: "
              ++ (O.minimizeO .squared (List.replicate nsRows.length 0)).message)))
        else if obj = ObjArg.str "squared_lengths" then
          ([.lstsq, .minimize .squared],
            .ok (index, List.zipWith (· + ·) (O.lstsqO coeff cout)
              (nsContrib index.length nsRows
                (O.minimizeO .squared (List.replicate nsRows.length 0)).x)))
        else if obj = ObjArg.str "summed_lengths" then
          ([.lstsq, .minimize .squared, .minimize .summed],
            .ok (index, List.zipWith (· + ·) (O.lstsqO coeff cout)
              (nsContrib index.length nsRows
                (O.minimizeO .summed
                  (O.minimizeO .squared (List.replicate nsRows.length 0)).x).x)))
        else if obj.isCallable then
          ([.lstsq, .minimize .squared, .minimize .custom],
            .ok (index, List.zipWith (· + ·) (O.lstsqO coeff cout)
              (nsContrib index.length nsRows
                (O.minimizeO .custom
                  (O.minimizeO .squared (List.replicate nsRows.length 0)).x).x)))
        else
          ([.lstsq, .minimize .squared],
            .error (.valueError ("Unknown nullspace objective: " ++ obj.print)))

/-- Dot product of a row of IEEE values with a finite vector (numpy
matrix-vector product row). -/
def dotF (row : List FVal) (v : List ℚ) : FVal :=
  (row.zip v).foldl (fun acc p => fadd acc (fmulF p.1 p.2)) (.fin 0)

/-- compute_concentration (deposition.py lines 93-120): the coefficient
matrix applied to the deposition, as a series over the valid extraction
timestamps. -/
def computeConcentration (P : AquiferParams) (index vals : List ℚ)
    (rt : List (Option ℚ)) (deposition : List ℚ) :
    Except PyErr (List (ℚ × FVal)) :=
  match depositionCoefficients P index vals rt with
  | .error e => .error e
  | .ok coeff =>
      let ts := (validRows index vals rt).map (fun r => r.1)
      .ok (ts.zip (coeff.map (fun row => dotF row deposition)))

/-- Rational dot product, truncating at the shorter list. -/
def dotQ : List ℚ → List ℚ → ℚ
  | a :: as, b :: bs => a * b + dotQ as bs
  | _, _ => 0

/-- Rational matrix-vector product. -/
def mulVecQ (m : List (List ℚ)) (v : List ℚ) : List ℚ :=
  m.map (fun row => dotQ row v)

/-- Sum of squares of a vector (the least-squares functional). -/
def sumSq (xs : List ℚ) : ℚ := (xs.map (fun x => x * x)).sum

/-- Componentwise difference of two vectors. -/
def subVec (xs ys : List ℚ) : List ℚ := List.zipWith (· - ·) xs ys

/-- The finite rationals of a coefficient matrix. -/
def matToQ (m : List (List FVal)) : List (List ℚ) :=
  m.map (fun row => row.map FVal.toQ0)

/-- Mutually orthonormal list of vectors (rows of the SVD factor vh). -/
def OrthonormalRows (rows : List (List ℚ)) : Prop :=
  rows.Pairwise (fun u v => dotQ u v = 0) ∧ ∀ v ∈ rows, dotQ v v = 1

theorem searchsorted_le_length (xs : List ℚ) (v : ℚ) :
    searchsorted xs v ≤ xs.length := by
  induction xs with
  | nil => simp [searchsorted]
  | cons x xs ih =>
    simp only [searchsorted, List.length_cons]
    split
    · exact Nat.succ_le_succ ih
    · exact Nat.zero_le _

theorem searchsorted_mono (xs : List ℚ) {a b : ℚ} (hab : a ≤ b) :
    searchsorted xs a ≤ searchsorted xs b := by
  induction xs with
  | nil => exact Nat.le_refl _
  | cons x xs ih =>
    simp only [searchsorted]
    by_cases hx : x < a
    · rw [if_pos hx, if_pos (lt_of_lt_of_le hx hab)]
      exact Nat.succ_le_succ ih
    · rw [if_neg hx]
      exact Nat.zero_le _

theorem searchsorted_getD_ge (xs : List ℚ) (v : ℚ)
    (h : searchsorted xs v < xs.length) : v ≤ xs.getD (searchsorted xs v) 0 := by
  induction xs with
  | nil => simp [searchsorted] at h
  | cons x xs ih =>
    simp only [searchsorted] at h ⊢
    by_cases hx : x < v
    · rw [if_pos hx] at h ⊢
      rw [List.getD_cons_succ]
      exact ih (by simpa using h)
    · rw [if_neg hx]
      simpa using le_of_not_lt hx

theorem searchsorted_getD_lt (xs : List ℚ) (v : ℚ) {j : ℕ}
    (hj : j < searchsorted xs v) : xs.getD j 0 < v := by
  induction xs generalizing j with
  | nil => simp [searchsorted] at hj
  | cons x xs ih =>
    simp only [searchsorted] at hj
    by_cases hx : x < v
    · rw [if_pos hx] at hj
      cases j with
      | zero => simpa using hx
      | succ j =>
        rw [List.getD_cons_succ]
        exact ih (by omega)
    · rw [if_neg hx] at hj
      omega

theorem searchsorted_of_mem {xs : List ℚ} (hs : List.Sorted (· < ·) xs)
    {t : ℚ} (hm : t ∈ xs) :
    searchsorted xs t < xs.length ∧ xs.getD (searchsorted xs t) 0 = t := by
  induction xs with
  | nil => cases hm
  | cons x xs ih =>
    rw [List.sorted_cons] at hs
    obtain ⟨hall, hs2⟩ := hs
    simp only [searchsorted]
    by_cases hx : x < t
    · have hmem : t ∈ xs := by
        rcases List.mem_cons.mp hm with h | h
        · exact absurd h.symm (ne_of_lt hx)
        · exact h
      obtain ⟨h1, h2⟩ := ih hs2 hmem
      rw [if_pos hx]
      exact ⟨Nat.succ_lt_succ h1, by rw [List.getD_cons_succ]; exact h2⟩
    · have hxt : t = x := by
        rcases List.mem_cons.mp hm with h | h
        · exact h
        · exact absurd (hall t h) hx
      rw [if_neg hx]
      simp [hxt]

theorem dtRow_length (index : List ℚ) (t rtv : ℚ) :
    (dtRow index t rtv).length = index.length := by
  simp [dtRow]

theorem dtRow_getD (index : List ℚ) (t rtv : ℚ) {j : ℕ} (hj : j < index.length) :
    (dtRow index t rtv).getD j 0 =
      if j = searchsorted index (t - rtv) then
        index.getD (searchsorted index (t - rtv)) 0 - (t - rtv)
      else if searchsorted index (t - rtv) ≤ j ∧ j ≤ searchsorted index t then 1
      else 0 := by
  simp only [dtRow]
  rw [List.getD_eq_getElem?_getD, List.getElem?_map, List.getElem?_range hj]
  rfl

/-- C1 said the binary-search index i_inf is at or before the infiltration
timestamp, with weight 1 - (infiltration - grid[i_inf]) in column i_inf.
On flow grid [0, 1, 2, 3] with extraction at 3 and residence time 1.5, the
infiltration timestamp is 1.5, i_inf is 2 (grid point 2, strictly after
1.5), and column i_inf holds 1/2, not the claimed 3/2. -/
theorem c1_counterexample :
    ¬ (([0, 1, 2, 3] : List ℚ).getD (searchsorted [0, 1, 2, 3] ((3 : ℚ) - 3 / 2)) 0
        ≤ (3 : ℚ) - 3 / 2)
    ∧ (dtRow [0, 1, 2, 3] 3 (3 / 2)).getD (searchsorted [0, 1, 2, 3] ((3 : ℚ) - 3 / 2)) 0
        ≠ 1 - (((3 : ℚ) - 3 / 2)
            - ([0, 1, 2, 3] : List ℚ).getD (searchsorted [0, 1, 2, 3] ((3 : ℚ) - 3 / 2)) 0) := by
  norm_num [dtRow, searchsorted]

/-- C1 (amended): for every valid extraction row (timestamp t in the sorted
flow grid, residence time rtv nonnegative), i_inf located by binary search
is the first grid index at or after the infiltration timestamp t - rtv,
i_extr is the position of t, the row holds 1.0 in the columns strictly
between i_inf and i_extr inclusive of i_extr, column i_inf holds
grid[i_inf] - (t - rtv) in days, and all other columns hold 0. -/
theorem c1_amended (index : List ℚ) (t rtv : ℚ)
    (hsorted : List.Sorted (· < ·) index) (hmem : t ∈ index) (hrt : 0 ≤ rtv) :
    searchsorted index (t - rtv) ≤ searchsorted index t
    ∧ searchsorted index t < index.length
    ∧ index.getD (searchsorted index t) 0 = t
    ∧ (t - rtv) ≤ index.getD (searchsorted index (t - rtv)) 0
    ∧ (∀ j, j < searchsorted index (t - rtv) → index.getD j 0 < t - rtv)
    ∧ (dtRow index t rtv).length = index.length
    ∧ (dtRow index t rtv).getD (searchsorted index (t - rtv)) 0
        = index.getD (searchsorted index (t - rtv)) 0 - (t - rtv)
    ∧ (∀ j, searchsorted index (t - rtv) < j → j ≤ searchsorted index t →
        (dtRow index t rtv).getD j 0 = 1)
    ∧ (∀ j, j < searchsorted index (t - rtv) → (dtRow index t rtv).getD j 0 = 0)
    ∧ (∀ j, searchsorted index t < j → j < index.length →
        (dtRow index t rtv).getD j 0 = 0) := by
  obtain ⟨hlt, hget⟩ := searchsorted_of_mem hsorted hmem
  have hmono : searchsorted index (t - rtv) ≤ searchsorted index t :=
    searchsorted_mono index (by linarith)
  refine ⟨hmono, hlt, hget, ?_, ?_, dtRow_length index t rtv, ?_, ?_, ?_, ?_⟩
  · exact searchsorted_getD_ge index (t - rtv) (lt_of_le_of_lt hmono hlt)
  · intro j hj
    exact searchsorted_getD_lt index (t - rtv) hj
  · rw [dtRow_getD index t rtv (lt_of_le_of_lt hmono hlt), if_pos rfl]
  · intro j h1 h2
    rw [dtRow_getD index t rtv (lt_of_le_of_lt h2 hlt),
      if_neg (by omega), if_pos ⟨le_of_lt h1, h2⟩]
  · intro j hj
    rw [dtRow_getD index t rtv (lt_of_lt_of_le hj (le_trans hmono (le_of_lt hlt))),
      if_neg (by omega), if_neg (by omega)]
  · intro j h1 h2
    rw [dtRow_getD index t rtv h2, if_neg (by omega), if_neg (by omega)]

/-- Witness: the amended C1 at flow grid [0, 1, 2, 3], extraction 3,
residence time 3/2. -/
theorem c1_amended_witness :
    searchsorted [0, 1, 2, 3] ((3 : ℚ) - 3 / 2) ≤ searchsorted [0, 1, 2, 3] (3 : ℚ)
    ∧ searchsorted [0, 1, 2, 3] (3 : ℚ) < ([0, 1, 2, 3] : List ℚ).length
    ∧ ([0, 1, 2, 3] : List ℚ).getD (searchsorted [0, 1, 2, 3] (3 : ℚ)) 0 = 3
    ∧ ((3 : ℚ) - 3 / 2) ≤ ([0, 1, 2, 3] : List ℚ).getD (searchsorted [0, 1, 2, 3] ((3 : ℚ) - 3 / 2)) 0
    ∧ (∀ j, j < searchsorted [0, 1, 2, 3] ((3 : ℚ) - 3 / 2) →
        ([0, 1, 2, 3] : List ℚ).getD j 0 < (3 : ℚ) - 3 / 2)
    ∧ (dtRow [0, 1, 2, 3] 3 (3 / 2)).length = ([0, 1, 2, 3] : List ℚ).length
    ∧ (dtRow [0, 1, 2, 3] 3 (3 / 2)).getD (searchsorted [0, 1, 2, 3] ((3 : ℚ) - 3 / 2)) 0
        = ([0, 1, 2, 3] : List ℚ).getD (searchsorted [0, 1, 2, 3] ((3 : ℚ) - 3 / 2)) 0 - ((3 : ℚ) - 3 / 2)
    ∧ (∀ j, searchsorted [0, 1, 2, 3] ((3 : ℚ) - 3 / 2) < j → j ≤ searchsorted [0, 1, 2, 3] (3 : ℚ) →
        (dtRow [0, 1, 2, 3] 3 (3 / 2)).getD j 0 = 1)
    ∧ (∀ j, j < searchsorted [0, 1, 2, 3] ((3 : ℚ) - 3 / 2) →
        (dtRow [0, 1, 2, 3] 3 (3 / 2)).getD j 0 = 0)
    ∧ (∀ j, searchsorted [0, 1, 2, 3] (3 : ℚ) < j → j < ([0, 1, 2, 3] : List ℚ).length →
        (dtRow [0, 1, 2, 3] 3 (3 / 2)).getD j 0 = 0) :=
  c1_amended [0, 1, 2, 3] 3 (3 / 2)
    (by norm_num [List.Sorted]) (by norm_num) (by norm_num)

theorem countP_tail_eq_zero {tol a : ℚ} {t : List ℚ}
    (hall : ∀ b ∈ t, a ≥ b) (hpa : ¬ tol ≤ a) :
    t.countP (fun x => decide (tol ≤ x)) = 0 := by
  rw [List.countP_eq_zero]
  intro b hb
  simp only [decide_eq_true_eq]
  intro hzb
  exact hpa (le_trans hzb (hall b hb))

theorem countP_sorted_getD_ge {tol : ℚ} {s : List ℚ} (hs : s.Pairwise (· ≥ ·))
    {i : ℕ} (hi : i < s.countP (fun x => decide (tol ≤ x))) :
    tol ≤ s.getD i 0 := by
  induction s generalizing i with
  | nil => simp at hi
  | cons a t ih =>
    rw [List.pairwise_cons] at hs
    obtain ⟨hall, ht⟩ := hs
    by_cases hpa : tol ≤ a
    · rw [List.countP_cons_of_pos _ _ (by simpa using hpa)] at hi
      cases i with
      | zero => simpa using hpa
      | succ j =>
        rw [List.getD_cons_succ]
        exact ih ht (by omega)
    · rw [List.countP_cons_of_neg _ _ (by simpa using hpa)] at hi
      rw [countP_tail_eq_zero hall hpa] at hi
      omega

theorem countP_sorted_getD_lt {tol : ℚ} {s : List ℚ} (hs : s.Pairwise (· ≥ ·))
    {i : ℕ} (h1 : s.countP (fun x => decide (tol ≤ x)) ≤ i) (h2 : i < s.length) :
    s.getD i 0 < tol := by
  induction s generalizing i with
  | nil => simp at h2
  | cons a t ih =>
    rw [List.pairwise_cons] at hs
    obtain ⟨hall, ht⟩ := hs
    by_cases hpa : tol ≤ a
    · rw [List.countP_cons_of_pos _ _ (by simpa using hpa)] at h1
      cases i with
      | zero => omega
      | succ j =>
        rw [List.getD_cons_succ]
        exact ih ht (by omega) (by simpa using h2)
    · cases i with
      | zero => simpa using lt_of_not_le hpa
      | succ j =>
        rw [List.getD_cons_succ]
        refine ih ht ?_ (by simpa using h2)
        rw [countP_tail_eq_zero hall hpa]
        omega

theorem orthonormalRows_drop {vh : List (List ℚ)} (n : ℕ)
    (h : OrthonormalRows vh) : OrthonormalRows (vh.drop n) :=
  ⟨h.1.sublist (List.drop_sublist n vh),
    fun v hv => h.2 v (List.drop_subset n vh hv)⟩

/-- C2 said a singular value exactly equal to tol contributes a nullspace
basis vector. With a single singular value equal to atol (so tol = atol) and
vh the 1 x 1 identity, nullspace keeps no vector: the code counts s >= tol
as nonzero, so the nullity is 0, not 1. -/
theorem c2_counterexample :
    nullspaceRun [(1 : ℚ) / 10 ^ 13] [[1]] ((1 : ℚ) / 10 ^ 13) 0 = .ok []
    ∧ ((1 : ℚ) / 10 ^ 13) ≤ max ((1 : ℚ) / 10 ^ 13) (0 * ((1 : ℚ) / 10 ^ 13)) := by
  norm_num [nullspaceRun]

/-- C2 (amended): with a nonempty singular-value list sorted in descending
order and an orthonormal square factor vh, nullspace returns the right
singular vectors whose singular values fall strictly below
tol = max(atol, rtol * largest), together with the trailing rows of vh that
have no associated singular value, as nullity = n_rows(vh) - #(s >= tol)
orthonormal vectors of full column length; a singular value exactly equal
to tol does not contribute. -/
theorem c2_amended (s0 : ℚ) (rest : List ℚ) (vh : List (List ℚ)) (k : ℕ)
    (atol rtol : ℚ)
    (hsorted : (s0 :: rest).Pairwise (· ≥ ·))
    (hvh : ∀ r ∈ vh, r.length = k)
    (hortho : OrthonormalRows vh) :
    nullspaceRun (s0 :: rest) vh atol rtol
      = .ok (vh.drop ((s0 :: rest).countP (fun x => decide (max atol (rtol * s0) ≤ x))))
    ∧ (vh.drop ((s0 :: rest).countP (fun x => decide (max atol (rtol * s0) ≤ x)))).length
        = vh.length - (s0 :: rest).countP (fun x => decide (max atol (rtol * s0) ≤ x))
    ∧ (∀ i, i < (s0 :: rest).countP (fun x => decide (max atol (rtol * s0) ≤ x)) →
        max atol (rtol * s0) ≤ (s0 :: rest).getD i 0)
    ∧ (∀ i, (s0 :: rest).countP (fun x => decide (max atol (rtol * s0) ≤ x)) ≤ i →
        i < (s0 :: rest).length → (s0 :: rest).getD i 0 < max atol (rtol * s0))
    ∧ (∀ r ∈ vh.drop ((s0 :: rest).countP (fun x => decide (max atol (rtol * s0) ≤ x))),
        r.length = k)
    ∧ OrthonormalRows
        (vh.drop ((s0 :: rest).countP (fun x => decide (max atol (rtol * s0) ≤ x)))) := by
  refine ⟨rfl, List.length_drop _ _, ?_, ?_, ?_, ?_⟩
  · intro i hi
    exact countP_sorted_getD_ge hsorted hi
  · intro i h1 h2
    exact countP_sorted_getD_lt hsorted h1 h2
  · intro r hr
    exact hvh r (List.drop_subset _ vh hr)
  · exact orthonormalRows_drop _ hortho

/-- Witness: the amended C2 at s = [2, 1/2], vh the 2 x 2 identity,
atol = 1, rtol = 0, where tol = 1 and only the second right singular vector
is kept. -/
theorem c2_amended_witness :
    nullspaceRun [(2 : ℚ), 1 / 2] [[1, 0], [0, 1]] 1 0
      = .ok (([[1, 0], [0, 1]] : List (List ℚ)).drop
          (([(2 : ℚ), 1 / 2]).countP (fun x => decide (max 1 (0 * 2) ≤ x))))
    ∧ (([[1, 0], [0, 1]] : List (List ℚ)).drop
          (([(2 : ℚ), 1 / 2]).countP (fun x => decide (max 1 (0 * 2) ≤ x)))).length
        = ([[1, 0], [0, 1]] : List (List ℚ)).length
            - ([(2 : ℚ), 1 / 2]).countP (fun x => decide (max 1 (0 * 2) ≤ x))
    ∧ (∀ i, i < ([(2 : ℚ), 1 / 2]).countP (fun x => decide (max 1 (0 * 2) ≤ x)) →
        max (1 : ℚ) (0 * 2) ≤ ([(2 : ℚ), 1 / 2]).getD i 0)
    ∧ (∀ i, ([(2 : ℚ), 1 / 2]).countP (fun x => decide (max 1 (0 * 2) ≤ x)) ≤ i →
        i < ([(2 : ℚ), 1 / 2] : List ℚ).length →
        ([(2 : ℚ), 1 / 2]).getD i 0 < max (1 : ℚ) (0 * 2))
    ∧ (∀ r ∈ ([[1, 0], [0, 1]] : List (List ℚ)).drop
          (([(2 : ℚ), 1 / 2]).countP (fun x => decide (max 1 (0 * 2) ≤ x))),
        r.length = 2)
    ∧ OrthonormalRows
        (([[1, 0], [0, 1]] : List (List ℚ)).drop
          (([(2 : ℚ), 1 / 2]).countP (fun x => decide (max 1 (0 * 2) ≤ x)))) :=
  c2_amended 2 [1 / 2] [[1, 0], [0, 1]] 2 1 0
    (by norm_num)
    (by norm_num)
    (by norm_num [OrthonormalRows, dotQ])

/-- Fixture: unit aquifer parameters. -/
def fxParams : AquiferParams := ⟨1, 1, 1, 1⟩

/-- Fixture: two-day flow grid. -/
def fxIndex2 : List ℚ := [0, 1]

/-- Fixture: unit flow on the two-day grid. -/
def fxVals2 : List ℚ := [1, 1]

/-- Fixture: residence time missing on day 0, one day on day 1. -/
def fxRt2 : List (Option ℚ) := [none, some 1]

/-- Fixture: well-behaved external numerical routines for the two-day grid
(1 x 2 coefficient matrix, one nullspace vector). -/
def fxOracles : Oracles :=
  { lstsqO := fun _ _ => [0, 0]
    svdO := fun _ => ([1], [[0, 1], [1, 0]])
    minimizeO := fun _ x0 => ⟨x0, true, "ok"⟩ }

/-- Fixture: same routines, but the second-stage minimization reports
failure. -/
def fxOraclesFail : Oracles :=
  { lstsqO := fun _ _ => [0, 0]
    svdO := fun _ => ([1], [[0, 1], [1, 0]])
    minimizeO := fun st x0 =>
      if st = MinStage.summed then
        ⟨x0, false, "Desired error not necessarily achieved due to precision loss."⟩
      else ⟨x0, true, "ok"⟩ }

theorem validRows_length_eq_countP (index vals : List ℚ) (rt : List (Option ℚ))
    (h1 : vals.length = index.length) (h2 : rt.length = index.length) :
    (validRows index vals rt).length = rt.countP Option.isSome := by
  induction index generalizing vals rt with
  | nil =>
    rw [List.length_eq_zero.mp h2]
    simp [validRows]
  | cons t ts ih =>
    cases vals with
    | nil => simp at h1
    | cons v vs =>
      cases rt with
      | nil => simp at h2
      | cons r rs =>
        cases r with
        | none =>
          simpa [validRows, List.zip_cons_cons, List.filterMap_cons] using
            ih vs rs (by simpa using h1) (by simpa using h2)
        | some q =>
          simpa [validRows, List.zip_cons_cons, List.filterMap_cons] using
            ih vs rs (by simpa using h1) (by simpa using h2)

theorem validRows_map_fst_sublist (index vals : List ℚ) (rt : List (Option ℚ)) :
    ((validRows index vals rt).map (fun r => r.1)).Sublist index := by
  induction index generalizing vals rt with
  | nil =>
    simp [validRows]
  | cons t ts ih =>
    cases vals with
    | nil => simp [validRows]
    | cons v vs =>
      cases rt with
      | nil => simp [validRows]
      | cons r rs =>
        cases r with
        | none =>
          simpa [validRows, List.zip_cons_cons, List.filterMap_cons] using
            (ih vs rs).cons t
        | some q =>
          simpa [validRows, List.zip_cons_cons, List.filterMap_cons] using
            (ih vs rs).cons₂ t

theorem mem_validRows_fst {index vals : List ℚ} {rt : List (Option ℚ)}
    {tr : ℚ × ℚ × ℚ} (h : tr ∈ validRows index vals rt) : tr.1 ∈ index :=
  (validRows_map_fst_sublist index vals rt).subset
    (List.mem_map_of_mem (fun r => r.1) h)

theorem validRows_eq_nil (index vals : List ℚ) (rt : List (Option ℚ))
    (h : ∀ r ∈ rt, r = none) : validRows index vals rt = [] := by
  induction index generalizing vals rt with
  | nil => simp [validRows]
  | cons t ts ih =>
    cases vals with
    | nil => simp [validRows]
    | cons v vs =>
      cases rt with
      | nil => simp [validRows]
      | cons r rs =>
        have h0 : r = none := h r (List.mem_cons_self r rs)
        subst h0
        simpa [validRows, List.zip_cons_cons, List.filterMap_cons] using
          ih vs rs (fun x hx => h x (List.mem_cons_of_mem _ hx))

/-- A scaled value that is either a nonzero finite value or an infinity
(so in particular not the finite zero). -/
def FVal.nzOrInf : FVal → Prop
  | .fin q => q ≠ 0
  | .inf => True
  | .ninf => True
  | .nan => False

theorem fmulF_ne_fin_zero {v : FVal} (hv : v.nzOrInf) {d : ℚ} (hd : d ≠ 0) :
    fmulF v d ≠ FVal.fin 0 := by
  cases v with
  | fin q =>
    simp only [FVal.nzOrInf] at hv
    simp only [fmulF, ne_eq, FVal.fin.injEq, mul_eq_zero, not_or]
    exact ⟨hv, hd⟩
  | inf =>
    simp only [fmulF, if_neg hd]
    split <;> simp
  | ninf =>
    simp only [fmulF, if_neg hd]
    split <;> simp
  | nan => exact absurd hv (by simp [FVal.nzOrInf])

theorem scale_nzOrInf (fv c m : ℚ) (hfv : fv ≠ 0) :
    (fdivF (fdivQ fv c) m).nzOrInf := by
  by_cases hc : c = 0
  · simp only [fdivQ, if_pos hc, if_neg hfv]
    by_cases hp : 0 < fv
    · simp only [if_pos hp, fdivF]
      split <;> trivial
    · simp only [if_neg hp, fdivF]
      split <;> trivial
  · simp only [fdivQ, if_neg hc, fdivF]
    have hq : fv / c ≠ 0 := div_ne_zero hfv hc
    by_cases hm : m = 0
    · simp only [fdivQ, if_pos hm, if_neg hq]
      split <;> trivial
    · simp only [fdivQ, if_neg hm, FVal.nzOrInf]
      exact div_ne_zero hq hm

theorem depositionCoefficients_ok {P : AquiferParams} {index vals : List ℚ}
    {rt : List (Option ℚ)} {m : List (List FVal)}
    (hm : depositionCoefficients P index vals rt = .ok m) :
    m = coeffMatrix P index vals rt
    ∧ (coeffMatrix P index vals rt).any (fun row => row.any FVal.isnan) = false := by
  unfold depositionCoefficients at hm
  by_cases hc : (coeffMatrix P index vals rt).any (fun row => row.any FVal.isnan) = true
  · rw [if_pos hc] at hm
    cases hm
  · rw [if_neg hc] at hm
    exact ⟨(Except.ok.injEq _ _).mp hm.symm, Bool.not_eq_true _ ▸ hc⟩

/-- C6 said any non-finite entry of the scaled matrix raises an error. On
flow grid [0, 1] with flows [5, -5] (median 0, so the clip floor is 0) and
residence time 3/2 on day 1, the scaling divides -5 by the clipped flow 0
and the matrix [[-inf, -inf]] is returned without any error: the code only
checks numpy.isnan, which is false on infinities. -/
theorem c6_counterexample :
    depositionCoefficients fxParams fxIndex2 [5, -5] [none, some (3 / 2)]
      = .ok [[FVal.ninf, FVal.ninf]]
    ∧ FVal.ninf.isfinite = false := by
  refine ⟨?_, rfl⟩
  norm_num +decide [depositionCoefficients, coeffMatrix, validRows, dtRow, searchsorted,
    medianQ, sortQ, insertQ, fdivQ, fdivF, fmulF, FVal.isnan, fxParams, fxIndex2,
    List.filterMap, Option.map, List.range_succ]

/-- C6 (amended): deposition_coefficients raises exactly when some entry of
the scaled coefficient matrix is NaN, and the matrix is returned unchanged
exactly when no entry is NaN; infinite entries are not detected and may be
returned to the caller. -/
theorem c6_amended (P : AquiferParams) (index vals : List ℚ)
    (rt : List (Option ℚ)) :
    (depositionCoefficients P index vals rt
        = .error (.valueError "Coefficients contain nan values.")
      ↔ (coeffMatrix P index vals rt).any (fun row => row.any FVal.isnan) = true)
    ∧ (depositionCoefficients P index vals rt = .ok (coeffMatrix P index vals rt)
      ↔ (coeffMatrix P index vals rt).any (fun row => row.any FVal.isnan) = false) := by
  unfold depositionCoefficients
  by_cases hc : (coeffMatrix P index vals rt).any (fun row => row.any FVal.isnan) = true
  · rw [if_pos hc]
    simp [hc]
  · rw [if_neg hc]
    simp only [Bool.not_eq_true] at hc
    simp [hc]

/-- C9 said no returned row is entirely zero. On flow grid [0, 1, 2] with
flows [10, 0, 10] and the only valid residence time 1/2 at day 1, the
extraction-day flow is 0, so the catchment area is 0 and the single
returned row is [0, 0, 0]. -/
theorem c9_counterexample :
    depositionCoefficients fxParams [0, 1, 2] [10, 0, 10] [none, some (1 / 2), none]
      = .ok [[FVal.fin 0, FVal.fin 0, FVal.fin 0]]
    ∧ ∀ a ∈ [FVal.fin 0, FVal.fin 0, FVal.fin 0], a = FVal.fin 0 := by
  constructor
  · norm_num +decide [depositionCoefficients, coeffMatrix, validRows, dtRow, searchsorted,
      medianQ, sortQ, insertQ, fdivQ, fdivF, fmulF, FVal.isnan, fxParams,
      List.filterMap, Option.map, List.range_succ]
  · intro a ha
    simpa using ha

/-- C9 (amended): the matrix returned by deposition_coefficients has exactly
one row per extraction timestamp with non-missing residence time, those
timestamps appear in the same relative order as in the flow index (their
list is a sublist of the index), and no row is entirely zero provided the
flow at the extraction timestamp is nonzero and its residence time is
positive (a zero extraction-day flow or a zero residence time yields an
all-zero row). -/
theorem c9_amended (P : AquiferParams) (index vals : List ℚ)
    (rt : List (Option ℚ)) (m : List (List FVal))
    (h1 : vals.length = index.length) (h2 : rt.length = index.length)
    (hsorted : List.Sorted (· < ·) index)
    (hrows : ∀ tr ∈ validRows index vals rt, 0 < tr.2.2 ∧ tr.2.1 ≠ 0)
    (hm : depositionCoefficients P index vals rt = .ok m) :
    m.length = rt.countP Option.isSome
    ∧ ((validRows index vals rt).map (fun r => r.1)).Sublist index
    ∧ ∀ row ∈ m, ∃ a ∈ row, a ≠ FVal.fin 0 := by
  obtain ⟨hmeq, -⟩ := depositionCoefficients_ok hm
  subst hmeq
  refine ⟨?_, validRows_map_fst_sublist index vals rt, ?_⟩
  · rw [coeffMatrix, List.length_map]
    exact validRows_length_eq_countP index vals rt h1 h2
  · intro row hrow
    rw [coeffMatrix] at hrow
    obtain ⟨tr, htr, hroweq⟩ := List.mem_map.mp hrow
    obtain ⟨hrt, hfv⟩ := hrows tr htr
    have ht : tr.1 ∈ index := mem_validRows_fst htr
    obtain ⟨hlt, hget⟩ := searchsorted_of_mem hsorted ht
    have hmono : searchsorted index (tr.1 - tr.2.2) ≤ searchsorted index tr.1 :=
      searchsorted_mono index (by linarith)
    have hscale := scale_nzOrInf tr.2.1
      (P.retardation_factor * P.porosity * P.thickness)
      (max tr.2.1 (medianQ vals / 100)) hfv
    -- the dt entry at i_extr (if i_inf < i_extr) or at i_inf (= rtv) is nonzero
    have hj : ∃ j, ∃ hlen : j < index.length, (dtRow index tr.1 tr.2.2).getD j 0 ≠ 0 := by
      rcases eq_or_lt_of_le hmono with heq | hltm
      · refine ⟨searchsorted index (tr.1 - tr.2.2), lt_of_le_of_lt hmono hlt, ?_⟩
        rw [dtRow_getD index tr.1 tr.2.2 (lt_of_le_of_lt hmono hlt), if_pos rfl,
          heq, hget]
        linarith
      · refine ⟨searchsorted index tr.1, hlt, ?_⟩
        rw [dtRow_getD index tr.1 tr.2.2 hlt, if_neg (by omega),
          if_pos ⟨hmono, le_refl _⟩]
        norm_num
    obtain ⟨j, hlen, hne⟩ := hj
    have hlen2 : j < (dtRow index tr.1 tr.2.2).length := by
      rw [dtRow_length]; exact hlen
    have hmem : (dtRow index tr.1 tr.2.2).getD j 0 ∈ dtRow index tr.1 tr.2.2 := by
      rw [List.getD_eq_getElem _ _ hlen2]
      exact List.getElem_mem hlen2
    refine ⟨fmulF (fdivF (fdivQ tr.2.1
        (P.retardation_factor * P.porosity * P.thickness))
        (max tr.2.1 (medianQ vals / 100))) ((dtRow index tr.1 tr.2.2).getD j 0), ?_, ?_⟩
    · rw [← hroweq]
      exact List.mem_map_of_mem _ hmem
    · exact fmulF_ne_fin_zero hscale hne

/-- Witness: the amended C9 on flow grid [0, 1] with unit flow and a single
valid residence time of one day. -/
theorem c9_amended_witness :
    ([[FVal.fin 0, FVal.fin 1]] : List (List FVal)).length = fxRt2.countP Option.isSome
    ∧ ((validRows fxIndex2 fxVals2 fxRt2).map (fun r => r.1)).Sublist fxIndex2
    ∧ ∀ row ∈ ([[FVal.fin 0, FVal.fin 1]] : List (List FVal)),
        ∃ a ∈ row, a ≠ FVal.fin 0 :=
  c9_amended fxParams fxIndex2 fxVals2 fxRt2 [[FVal.fin 0, FVal.fin 1]]
    (by norm_num [fxIndex2, fxVals2])
    (by norm_num [fxIndex2, fxRt2])
    (by norm_num [fxIndex2, List.Sorted])
    (by norm_num [validRows, fxIndex2, fxVals2, fxRt2, List.filterMap, Option.map])
    (by norm_num +decide [depositionCoefficients, coeffMatrix, validRows, dtRow, searchsorted,
      medianQ, sortQ, insertQ, fdivQ, fdivF, fmulF, FVal.isnan, fxParams, fxIndex2,
      fxVals2, fxRt2, List.filterMap, Option.map, List.range_succ])

theorem zipWith_add_replicate_zero (xs : List ℚ) (n : ℕ) (h : xs.length = n) :
    List.zipWith (· + ·) xs (List.replicate n 0) = xs := by
  induction xs generalizing n with
  | nil => simp
  | cons x xs ih =>
    cases n with
    | zero => simp at h
    | succ m =>
      rw [List.replicate_succ, List.zipWith_cons_cons, add_zero,
        ih m (by simpa using h)]

theorem nsContrib_nil (k : ℕ) (x : List ℚ) :
    nsContrib k [] x = List.replicate k 0 := rfl

/-- Any successful run of compute_deposition returns the series on the full
flow index with values x_ls + N w for the least-squares oracle output x_ls
and some weight vector w chosen by the optimizer. -/
theorem computeDeposition_ok_shape
    {O : Oracles} {P : AquiferParams} {index vals : List ℚ}
    {rt : List (Option ℚ)} {cout : List ℚ} {obj : ObjArg}
    {coeff : List (List FVal)} {nsRows : List (List ℚ)}
    {tr : List Event} {retIdx dvals : List ℚ}
    (hco : depositionCoefficients P index vals rt = .ok coeff)
    (hns : nullspaceRun (O.svdO coeff).1 (O.svdO coeff).2 nullspaceAtol 0 = .ok nsRows)
    (hok : computeDeposition O P index vals rt cout obj = (tr, .ok (retIdx, dvals))) :
    retIdx = index
    ∧ ∃ w, dvals = List.zipWith (· + ·) (O.lstsqO coeff cout)
        (nsContrib index.length nsRows w) := by
  simp only [computeDeposition, hco, hns] at hok
  by_cases hlen : cout.length ≠ coeff.length
  · rw [if_pos hlen] at hok
    simp at hok
  · rw [if_neg hlen] at hok
    by_cases hs1 : (O.minimizeO .squared (List.replicate nsRows.length 0)).success = false
    · rw [if_pos hs1] at hok
      simp at hok
    · rw [if_neg hs1] at hok
      by_cases h1 : obj = ObjArg.str "squared_lengths"
      · rw [if_pos h1] at hok
        rw [Prod.mk.injEq, Except.ok.injEq, Prod.mk.injEq] at hok
        exact ⟨hok.2.1.symm, _, hok.2.2.symm⟩
      · rw [if_neg h1] at hok
        by_cases h2 : obj = ObjArg.str "summed_lengths"
        · rw [if_pos h2] at hok
          rw [Prod.mk.injEq, Except.ok.injEq, Prod.mk.injEq] at hok
          exact ⟨hok.2.1.symm, _, hok.2.2.symm⟩
        · rw [if_neg h2] at hok
          by_cases h3 : obj.isCallable = true
          · rw [if_pos h3] at hok
            rw [Prod.mk.injEq, Except.ok.injEq, Prod.mk.injEq] at hok
            exact ⟨hok.2.1.symm, _, hok.2.2.symm⟩
          · rw [if_neg h3] at hok
            simp at hok

/-- C7: when the concentration series length differs from the number of
valid coefficient rows, compute_deposition raises the shape-mismatch
ValueError with an empty event list: the least-squares solve has not run,
and the input is not truncated or padded. -/
theorem c7_length_mismatch (O : Oracles) (P : AquiferParams)
    (index vals : List ℚ) (rt : List (Option ℚ)) (cout : List ℚ)
    (obj : ObjArg) (coeff : List (List FVal))
    (hco : depositionCoefficients P index vals rt = .ok coeff)
    (hlen : cout.length ≠ coeff.length) :
    computeDeposition O P index vals rt cout obj
      = ([], .error (.valueError (lengthMsg cout.length coeff.length))) := by
  simp only [computeDeposition, hco]
  rw [if_pos hlen]

/-- Witness: C7 on the two-day fixture with a concentration series of
length 2 against a one-row coefficient matrix. -/
theorem c7_length_mismatch_witness :
    computeDeposition fxOracles fxParams fxIndex2 fxVals2 fxRt2 [1, 2]
        (ObjArg.str "squared_lengths")
      = ([], .error (.valueError (lengthMsg 2 1))) := by
  have h := c7_length_mismatch fxOracles fxParams fxIndex2 fxVals2 fxRt2 [1, 2]
    (ObjArg.str "squared_lengths") [[FVal.fin 0, FVal.fin 1]]
    (by norm_num +decide [depositionCoefficients, coeffMatrix, validRows, dtRow,
      searchsorted, medianQ, sortQ, insertQ, fdivQ, fdivF, fmulF, FVal.isnan,
      fxParams, fxIndex2, fxVals2, fxRt2, List.filterMap, Option.map, List.range_succ])
    (by norm_num)
  simpa using h

/-- C4 said the unknown-objective error is reported before any optimization
runs. On the two-day fixture with objective string "bogus" the returned
event list shows the initial squared_lengths minimization ran before the
error was raised. -/
theorem c4_counterexample :
    computeDeposition fxOracles fxParams fxIndex2 fxVals2 fxRt2 [1]
        (ObjArg.str "bogus")
      = ([Event.lstsq, Event.minimize MinStage.squared],
          .error (.valueError "Unknown nullspace objective: bogus"))
    ∧ Event.minimize MinStage.squared
        ∈ [Event.lstsq, Event.minimize MinStage.squared] := by
  constructor
  · norm_num +decide [computeDeposition, depositionCoefficients, coeffMatrix,
      validRows, dtRow, searchsorted, medianQ, sortQ, insertQ, fdivQ, fdivF,
      fmulF, FVal.isnan, fxParams, fxIndex2, fxVals2, fxRt2, fxOracles,
      nullspaceRun, nullspaceAtol, ObjArg.isCallable, ObjArg.print, nsContrib,
      lengthMsg, List.filterMap, Option.map, List.range_succ]
  · simp

/-- C4 (amended): a nullspace_objective that is neither "squared_lengths",
nor "summed_lengths", nor callable raises the unknown-objective ValueError
after the initial squared_lengths minimization (which always runs) and
before any second-stage minimization. -/
theorem c4_amended (O : Oracles) (P : AquiferParams) (index vals : List ℚ)
    (rt : List (Option ℚ)) (cout : List ℚ) (obj : ObjArg)
    (coeff : List (List FVal)) (nsRows : List (List ℚ))
    (hinv : obj.isUnknown = true)
    (hco : depositionCoefficients P index vals rt = .ok coeff)
    (hlen : cout.length = coeff.length)
    (hns : nullspaceRun (O.svdO coeff).1 (O.svdO coeff).2 nullspaceAtol 0 = .ok nsRows)
    (hm1 : (O.minimizeO .squared (List.replicate nsRows.length 0)).success = true) :
    computeDeposition O P index vals rt cout obj
      = ([Event.lstsq, Event.minimize MinStage.squared],
          .error (.valueError ("Unknown nullspace objective: " ++ obj.print))) := by
  simp only [computeDeposition, hco, hns]
  rw [if_neg (by omega), if_neg (by simp [hm1])]
  cases obj with
  | str s =>
    simp only [ObjArg.isUnknown, Bool.and_eq_true, Bool.not_eq_true',
      beq_eq_false_iff_ne, ne_eq] at hinv
    obtain ⟨hs1, hs2⟩ := hinv
    rw [if_neg (by simp [hs1]), if_neg (by simp [hs2]),
      if_neg (by simp [ObjArg.isCallable])]
  | callable => simp [ObjArg.isUnknown] at hinv
  | other =>
    rw [if_neg (by simp), if_neg (by simp), if_neg (by simp [ObjArg.isCallable])]

/-- Witness: the amended C4 on the two-day fixture with objective string
"bogus". -/
theorem c4_amended_witness :
    computeDeposition fxOracles fxParams fxIndex2 fxVals2 fxRt2 [1]
        (ObjArg.str "bogus")
      = ([Event.lstsq, Event.minimize MinStage.squared],
          .error (.valueError ("Unknown nullspace objective: "
            ++ (ObjArg.str "bogus").print))) :=
  c4_amended fxOracles fxParams fxIndex2 fxVals2 fxRt2 [1] (ObjArg.str "bogus")
    [[FVal.fin 0, FVal.fin 1]] [[1, 0]]
    (by decide)
    (by norm_num +decide [depositionCoefficients, coeffMatrix, validRows, dtRow,
      searchsorted, medianQ, sortQ, insertQ, fdivQ, fdivF, fmulF, FVal.isnan,
      fxParams, fxIndex2, fxVals2, fxRt2, List.filterMap, Option.map, List.range_succ])
    (by norm_num)
    (by norm_num [fxOracles, nullspaceRun, nullspaceAtol])
    (by norm_num [fxOracles])

/-- C5: the second-stage minimization result is used without a convergence
check. On the two-day fixture with objective "summed_lengths" and an
optimizer whose second stage reports failure, compute_deposition still
returns a deposition series built from the failed result instead of raising
"Optimization failed: ..." with the optimizer's message. -/
theorem c5_unchecked_second_stage :
    (fxOraclesFail.minimizeO MinStage.summed [0]).success = false
    ∧ computeDeposition fxOraclesFail fxParams fxIndex2 fxVals2 fxRt2 [1]
        (ObjArg.str "summed_lengths")
      = ([Event.lstsq, Event.minimize MinStage.squared, Event.minimize MinStage.summed],
          .ok (fxIndex2, [0, 0])) := by
  constructor
  · norm_num [fxOraclesFail]
  · norm_num +decide [computeDeposition, depositionCoefficients, coeffMatrix,
      validRows, dtRow, searchsorted, medianQ, sortQ, insertQ, fdivQ, fdivF,
      fmulF, FVal.isnan, fxParams, fxIndex2, fxVals2, fxRt2, fxOraclesFail,
      nullspaceRun, nullspaceAtol, ObjArg.isCallable, ObjArg.print, nsContrib,
      lengthMsg, List.filterMap, Option.map, List.range_succ, List.replicate_succ]

/-- C8: when the nullspace basis is empty (nullity 0) and the least-squares
oracle returns a full-length solution, a successful compute_deposition run
returns exactly that least-squares solution, aligned to the full flow
index. -/
theorem c8_full_rank (O : Oracles) (P : AquiferParams) (index vals : List ℚ)
    (rt : List (Option ℚ)) (cout : List ℚ) (obj : ObjArg)
    (coeff : List (List FVal)) (tr : List Event) (retIdx dvals : List ℚ)
    (hco : depositionCoefficients P index vals rt = .ok coeff)
    (hns : nullspaceRun (O.svdO coeff).1 (O.svdO coeff).2 nullspaceAtol 0 = .ok [])
    (hxl : (O.lstsqO coeff cout).length = index.length)
    (hok : computeDeposition O P index vals rt cout obj = (tr, .ok (retIdx, dvals))) :
    dvals = O.lstsqO coeff cout ∧ retIdx = index := by
  obtain ⟨hidx, w, hw⟩ := computeDeposition_ok_shape hco hns hok
  refine ⟨?_, hidx⟩
  rw [hw, nsContrib_nil]
  exact zipWith_add_replicate_zero _ _ hxl

/-- Fixture: one-day flow grid with a valid one-day residence time. -/
def fxIndex1 : List ℚ := [0]

/-- Fixture: unit flow on the one-day grid. -/
def fxVals1 : List ℚ := [1]

/-- Fixture: residence time of one day on the one-day grid. -/
def fxRt1 : List (Option ℚ) := [some 1]

/-- Fixture: external routines for the one-day grid: the 1 x 1 coefficient
matrix is full rank, so the SVD leaves an empty nullspace. -/
def fxOracles1 : Oracles :=
  { lstsqO := fun _ _ => [5]
    svdO := fun _ => ([1], [[1]])
    minimizeO := fun _ x0 => ⟨x0, true, "ok"⟩ }

/-- Witness: C8 on the one-day fixture, where the returned deposition is
exactly the least-squares oracle output [5] on the full index [0]. -/
theorem c8_full_rank_witness :
    ([(5 : ℚ)] = fxOracles1.lstsqO [[FVal.fin 1]] [2])
    ∧ (([0] : List ℚ) = fxIndex1) :=
  c8_full_rank fxOracles1 fxParams fxIndex1 fxVals1 fxRt1 [2]
    (ObjArg.str "squared_lengths") [[FVal.fin 1]]
    [Event.lstsq, Event.minimize MinStage.squared] [0] [5]
    (by norm_num +decide [depositionCoefficients, coeffMatrix, validRows, dtRow,
      searchsorted, medianQ, sortQ, insertQ, fdivQ, fdivF, fmulF, FVal.isnan,
      fxParams, fxIndex1, fxVals1, fxRt1, List.filterMap, Option.map, List.range_succ])
    (by norm_num [fxOracles1, nullspaceRun, nullspaceAtol])
    (by norm_num [fxOracles1, fxIndex1])
    (by norm_num +decide [computeDeposition, depositionCoefficients, coeffMatrix,
      validRows, dtRow, searchsorted, medianQ, sortQ, insertQ, fdivQ, fdivF,
      fmulF, FVal.isnan, fxParams, fxIndex1, fxVals1, fxRt1, fxOracles1,
      nullspaceRun, nullspaceAtol, ObjArg.isCallable, ObjArg.print, nsContrib,
      lengthMsg, List.filterMap, Option.map, List.range_succ])

/-- C10: on a coefficient matrix with zero rows (every residence time
missing), the singular-value list of the SVD is empty, nullspace raises
IndexError reading its first element, and compute_deposition with an empty
concentration series propagates that IndexError (after the least-squares
solve, before any minimization). -/
theorem c10_empty_rows (O : Oracles) (P : AquiferParams) (index vals : List ℚ)
    (rt : List (Option ℚ)) (obj : ObjArg) (vh : List (List ℚ)) (atol rtol : ℚ)
    (hall : ∀ r ∈ rt, r = none)
    (hsvd : (O.svdO (coeffMatrix P index vals rt)).1 = []) :
    nullspaceRun [] vh atol rtol = .error .indexError
    ∧ computeDeposition O P index vals rt [] obj
        = ([Event.lstsq], .error .indexError) := by
  refine ⟨rfl, ?_⟩
  have hcm : coeffMatrix P index vals rt = [] := by
    rw [coeffMatrix, validRows_eq_nil index vals rt hall]
    rfl
  have hco : depositionCoefficients P index vals rt = .ok [] := by
    rw [depositionCoefficients, hcm]
    rfl
  rw [hcm] at hsvd
  simp only [computeDeposition, hco, hsvd]
  rw [if_neg (by simp)]
  simp [nullspaceRun]

/-- Witness: C10 on the two-day grid with both residence times missing and
an SVD oracle returning an empty singular-value list for the empty
matrix. -/
theorem c10_empty_rows_witness :
    nullspaceRun [] ([] : List (List ℚ)) nullspaceAtol 0 = .error .indexError
    ∧ computeDeposition
        { lstsqO := fun _ _ => []
          svdO := fun _ => ([], [])
          minimizeO := fun _ x0 => ⟨x0, true, "ok"⟩ }
        fxParams fxIndex2 fxVals2 [none, none] []
        (ObjArg.str "squared_lengths")
        = ([Event.lstsq], .error .indexError) :=
  c10_empty_rows
    { lstsqO := fun _ _ => []
      svdO := fun _ => ([], [])
      minimizeO := fun _ x0 => ⟨x0, true, "ok"⟩ }
    fxParams fxIndex2 fxVals2 [none, none] (ObjArg.str "squared_lengths")
    [] nullspaceAtol 0
    (by simp)
    (by norm_num)

theorem dotQ_add (r u v : List ℚ) (h : u.length = v.length) :
    dotQ r (List.zipWith (· + ·) u v) = dotQ r u + dotQ r v := by
  induction r generalizing u v with
  | nil =>
    cases u <;> cases v <;> simp [dotQ]
  | cons a r ih =>
    cases u with
    | nil =>
      cases v with
      | nil => simp [dotQ]
      | cons b v => simp at h
    | cons x u =>
      cases v with
      | nil => simp at h
      | cons y v =>
        rw [List.zipWith_cons_cons]
        simp only [dotQ]
        rw [ih u v (by simpa using h)]
        ring

theorem mulVecQ_add (m : List (List ℚ)) (u v : List ℚ) (h : u.length = v.length) :
    mulVecQ m (List.zipWith (· + ·) u v)
      = List.zipWith (· + ·) (mulVecQ m u) (mulVecQ m v) := by
  induction m with
  | nil => rfl
  | cons r rows ih =>
    simp only [mulVecQ, List.map_cons, List.zipWith_cons_cons] at ih ⊢
    rw [dotQ_add r u v h]
    exact congrArg _ ih

theorem sumSq_nonneg (xs : List ℚ) : 0 ≤ sumSq xs := by
  rw [sumSq]
  apply List.sum_nonneg
  intro x hx
  obtain ⟨a, -, ha⟩ := List.mem_map.mp hx
  rw [← ha]
  exact mul_self_nonneg a

theorem sumSq_eq_zero {xs : List ℚ} (h : sumSq xs = 0) : ∀ a ∈ xs, a = 0 := by
  induction xs with
  | nil => simp
  | cons x xs ih =>
    rw [sumSq, List.map_cons, List.sum_cons] at h
    have h1 : 0 ≤ x * x := mul_self_nonneg x
    have h2 : 0 ≤ sumSq xs := sumSq_nonneg xs
    rw [sumSq] at h2
    have hx : x * x = 0 := by linarith
    have hxs : sumSq xs = 0 := by rw [sumSq]; linarith
    intro a ha
    rcases List.mem_cons.mp ha with h | h
    · rw [h]
      exact mul_self_eq_zero.mp hx
    · exact ih hxs a h

theorem sumSq_subVec_self (v : List ℚ) : sumSq (subVec v v) = 0 := by
  induction v with
  | nil => rfl
  | cons x v ih =>
    simp only [subVec, List.zipWith_cons_cons, sumSq, List.map_cons, List.sum_cons] at ih ⊢
    rw [sub_self]
    simp [ih]

theorem eq_of_subVec_eq_zero {xs ys : List ℚ} (h : xs.length = ys.length)
    (hz : ∀ a ∈ subVec xs ys, a = 0) : xs = ys := by
  induction xs generalizing ys with
  | nil =>
    cases ys with
    | nil => rfl
    | cons y ys => simp at h
  | cons x xs ih =>
    cases ys with
    | nil => simp at h
    | cons y ys =>
      simp only [subVec, List.zipWith_cons_cons] at hz
      have hx : x - y = 0 := hz (x - y) (List.mem_cons_self _ _)
      have hrest : xs = ys :=
        ih (by simpa using h) (fun a ha => hz a (List.mem_cons_of_mem _ ha))
      rw [sub_eq_zero.mp hx, hrest]

theorem dotF_foldl_fin (row : List FVal) (v : List ℚ) (q : ℚ)
    (hfin : ∀ a ∈ row, a.isfinite = true) :
    (row.zip v).foldl (fun acc p => fadd acc (fmulF p.1 p.2)) (.fin q)
      = .fin (q + dotQ (row.map FVal.toQ0) v) := by
  induction row generalizing v q with
  | nil => simp [dotQ]
  | cons a row ih =>
    cases v with
    | nil => simp [dotQ]
    | cons b v =>
      cases a with
      | fin qa =>
        rw [List.zip_cons_cons, List.foldl_cons]
        have : fadd (.fin q) (fmulF (.fin qa) b) = .fin (q + qa * b) := rfl
        rw [this, ih v (q + qa * b) (fun x hx => hfin x (List.mem_cons_of_mem _ hx))]
        simp only [List.map_cons, dotQ, FVal.toQ0]
        rw [add_assoc]
      | inf => simpa [FVal.isfinite] using hfin .inf (List.mem_cons_self _ _)
      | ninf => simpa [FVal.isfinite] using hfin .ninf (List.mem_cons_self _ _)
      | nan => simpa [FVal.isfinite] using hfin .nan (List.mem_cons_self _ _)

theorem map_dotF_eq_fin_mulVec (coeff : List (List FVal)) (d : List ℚ)
    (hfin : ∀ row ∈ coeff, ∀ a ∈ row, a.isfinite = true) :
    coeff.map (fun row => dotF row d) = (mulVecQ (matToQ coeff) d).map FVal.fin := by
  induction coeff with
  | nil => rfl
  | cons row rows ih =>
    simp only [List.map_cons, mulVecQ, matToQ] at ih ⊢
    refine List.cons_eq_cons.mpr ⟨?_, ?_⟩
    · rw [dotF, dotF_foldl_fin row d 0 (hfin row (List.mem_cons_self _ _))]
      rw [zero_add]
    · exact ih (fun r hr a ha => hfin r (List.mem_cons_of_mem _ hr) a ha)

theorem zip_map_snd {α β γ : Type} (l1 : List α) (l2 : List β) (f : β → γ)
    (h : l1.length = l2.length) :
    (l1.zip l2).map (fun p => f p.2) = l2.map f := by
  induction l1 generalizing l2 with
  | nil =>
    cases l2 with
    | nil => rfl
    | cons y l2 => simp at h
  | cons x l1 ih =>
    cases l2 with
    | nil => simp at h
    | cons y l2 =>
      rw [List.zip_cons_cons, List.map_cons, List.map_cons,
        ih l2 (by simpa using h)]

theorem foldl_zipAdd_length (l : List (List ℚ × ℚ)) (acc : List ℚ) (k : ℕ)
    (hacc : acc.length = k) (hl : ∀ p ∈ l, k ≤ p.1.length) :
    (l.foldl (fun acc p =>
        List.zipWith (· + ·) acc (p.1.map (fun a => p.2 * a))) acc).length = k := by
  induction l generalizing acc with
  | nil => exact hacc
  | cons p l ih =>
    rw [List.foldl_cons]
    refine ih _ ?_ (fun x hx => hl x (List.mem_cons_of_mem _ hx))
    rw [List.length_zipWith, List.length_map, hacc]
    exact Nat.min_eq_left (hl p (List.mem_cons_self _ _))

theorem nsContrib_length (k : ℕ) (rows : List (List ℚ)) (x : List ℚ)
    (h : ∀ r ∈ rows, k ≤ r.length) : (nsContrib k rows x).length = k := by
  rw [nsContrib]
  exact foldl_zipAdd_length _ _ _ (List.length_replicate k 0)
    (fun p hp => h p.1 (List.of_mem_zip hp).1)

theorem coeffMatrix_row_length (P : AquiferParams) (index vals : List ℚ)
    (rt : List (Option ℚ)) :
    ∀ row ∈ coeffMatrix P index vals rt, row.length = index.length := by
  intro row hrow
  rw [coeffMatrix] at hrow
  obtain ⟨tr, -, hroweq⟩ := List.mem_map.mp hrow
  rw [← hroweq, List.length_map, dtRow_length]

theorem matToQ_length (m : List (List FVal)) : (matToQ m).length = m.length :=
  List.length_map _ _

theorem mulVecQ_length (m : List (List ℚ)) (v : List ℚ) :
    (mulVecQ m v).length = m.length :=
  List.length_map _ _

/-- C3: if cout was produced by compute_concentration from some deposition
d0 (the system is consistent) and all coefficients are finite, then, under
the contracts of the external routines (lstsq minimizes the residual over
full-length vectors and returns a full-length solution, the SVD nullspace
vectors annihilate the matrix), any successful compute_deposition run on
cout yields a deposition whose compute_concentration is exactly the
original concentration series on the valid rows. -/
theorem c3_roundtrip (O : Oracles) (P : AquiferParams) (index vals : List ℚ)
    (rt : List (Option ℚ)) (cout d0 : List ℚ) (obj : ObjArg)
    (coeff : List (List FVal)) (nsRows : List (List ℚ))
    (pairs : List (ℚ × FVal)) (tr : List Event) (retIdx dvals : List ℚ)
    (hco : depositionCoefficients P index vals rt = .ok coeff)
    (hfin : ∀ row ∈ coeff, ∀ a ∈ row, a.isfinite = true)
    (hd0len : d0.length = index.length)
    (hc0 : computeConcentration P index vals rt d0 = .ok pairs)
    (hcout : cout = pairs.map (fun pr => pr.2.toQ0))
    (hlslen : (O.lstsqO coeff cout).length = index.length)
    (hlsmin : ∀ y, y.length = index.length →
      sumSq (subVec (mulVecQ (matToQ coeff) (O.lstsqO coeff cout)) cout)
        ≤ sumSq (subVec (mulVecQ (matToQ coeff) y) cout))
    (hns : nullspaceRun (O.svdO coeff).1 (O.svdO coeff).2 nullspaceAtol 0 = .ok nsRows)
    (hnslen : ∀ r ∈ nsRows, index.length ≤ r.length)
    (hnsvec : ∀ w, mulVecQ (matToQ coeff) (nsContrib index.length nsRows w)
      = List.replicate coeff.length 0)
    (hok : computeDeposition O P index vals rt cout obj = (tr, .ok (retIdx, dvals))) :
    computeConcentration P index vals rt dvals = .ok pairs := by
  obtain ⟨hcoeq, -⟩ := depositionCoefficients_ok hco
  -- lengths
  have hrowlen : ∀ row ∈ coeff, row.length = index.length := by
    rw [hcoeq]; exact coeffMatrix_row_length P index vals rt
  have hclen : coeff.length = (validRows index vals rt).length := by
    rw [hcoeq, coeffMatrix, List.length_map]
  have htslen : ((validRows index vals rt).map (fun r => r.1)).length
      = (coeff.map (fun row => dotF row d0)).length := by
    rw [List.length_map, List.length_map, hclen]
  -- unpack the forward run that generated cout
  simp only [computeConcentration, hco] at hc0 ⊢
  rw [Except.ok.injEq] at hc0
  -- cout is the rational matrix-vector product with d0
  have hcoutQ : cout = mulVecQ (matToQ coeff) d0 := by
    rw [hcout, ← hc0, zip_map_snd _ _ _ htslen, map_dotF_eq_fin_mulVec coeff d0 hfin,
      List.map_map]
    have hid : (FVal.toQ0 ∘ FVal.fin) = id := by
      funext q; rfl
    rw [hid, List.map_id]
  have hcoutlen : cout.length = coeff.length := by
    rw [hcoutQ, mulVecQ_length, matToQ_length]
  -- the least-squares residual vanishes because the system is consistent
  have hxls : mulVecQ (matToQ coeff) (O.lstsqO coeff cout) = cout := by
    have hmin := hlsmin d0 hd0len
    rw [← hcoutQ, sumSq_subVec_self] at hmin
    have hzero : sumSq (subVec (mulVecQ (matToQ coeff) (O.lstsqO coeff cout)) cout) = 0 :=
      le_antisymm hmin (sumSq_nonneg _)
    refine eq_of_subVec_eq_zero ?_ (sumSq_eq_zero hzero)
    rw [mulVecQ_length, matToQ_length, hcoutlen]
  -- the returned deposition maps to the same concentrations as d0
  obtain ⟨-, w, hw⟩ := computeDeposition_ok_shape hco hns hok
  have hkey : mulVecQ (matToQ coeff) dvals = mulVecQ (matToQ coeff) d0 := by
    rw [hw, mulVecQ_add _ _ _ (by
        rw [hlslen, nsContrib_length index.length nsRows w hnslen]),
      hnsvec w, hxls, zipWith_add_replicate_zero cout coeff.length hcoutlen, hcoutQ]
  rw [← hc0, Except.ok.injEq]
  rw [map_dotF_eq_fin_mulVec coeff dvals hfin, map_dotF_eq_fin_mulVec coeff d0 hfin,
    hkey]

/-- Witness: C3 on the one-day fixture: cout = [5] is generated by
compute_concentration from the deposition [5], and the round trip through
compute_deposition reproduces the series [(0, 5)]. -/
theorem c3_roundtrip_witness :
    computeConcentration fxParams fxIndex1 fxVals1 fxRt1 [5]
      = .ok [((0 : ℚ), FVal.fin 5)] :=
  c3_roundtrip fxOracles1 fxParams fxIndex1 fxVals1 fxRt1 [5] [5]
    (ObjArg.str "squared_lengths") [[FVal.fin 1]] []
    [((0 : ℚ), FVal.fin 5)]
    [Event.lstsq, Event.minimize MinStage.squared] [0] [5]
    (by norm_num +decide [depositionCoefficients, coeffMatrix, validRows, dtRow,
      searchsorted, medianQ, sortQ, insertQ, fdivQ, fdivF, fmulF, FVal.isnan,
      fxParams, fxIndex1, fxVals1, fxRt1, List.filterMap, Option.map, List.range_succ])
    (by intro row hrow a ha
        simp only [List.mem_singleton] at hrow
        subst hrow
        simp only [List.mem_singleton] at ha
        subst ha
        rfl)
    (by norm_num [fxIndex1])
    (by norm_num +decide [computeConcentration, depositionCoefficients, coeffMatrix,
      validRows, dtRow, searchsorted, medianQ, sortQ, insertQ, fdivQ, fdivF, fmulF,
      fadd, dotF, FVal.isnan, fxParams, fxIndex1, fxVals1, fxRt1, List.filterMap,
      Option.map, List.range_succ])
    (by norm_num [FVal.toQ0])
    (by norm_num [fxOracles1, fxIndex1])
    (by intro y hy
        have hz : sumSq (subVec (mulVecQ (matToQ [[FVal.fin 1]])
            (fxOracles1.lstsqO [[FVal.fin 1]] [5])) [5]) = 0 := by
          norm_num [sumSq, subVec, mulVecQ, dotQ, matToQ, FVal.toQ0, fxOracles1]
        rw [hz]
        exact sumSq_nonneg _)
    (by norm_num [fxOracles1, nullspaceRun, nullspaceAtol])
    (by simp)
    (by intro w
        norm_num [mulVecQ, nsContrib, dotQ, matToQ, FVal.toQ0, fxIndex1])
    (by norm_num +decide [computeDeposition, depositionCoefficients, coeffMatrix,
      validRows, dtRow, searchsorted, medianQ, sortQ, insertQ, fdivQ, fdivF,
      fmulF, FVal.isnan, fxParams, fxIndex1, fxVals1, fxRt1, fxOracles1,
      nullspaceRun, nullspaceAtol, ObjArg.isCallable, ObjArg.print, nsContrib,
      lengthMsg, List.filterMap, Option.map, List.range_succ, List.replicate_succ])

end Gwt
